import Mathlib

/-!
Shallow embedding of the function-memoization cache in `src/memo.rs`.

The cache maps 64-bit digests to type-erased entries.  We model:
* the `Track` trait (`key` feeding a hasher, `matches` against a stored
  constraint) as the structure `Trackable`; the hasher is abstract, so `key`
  produces the stream of scalars fed to it and an arbitrary `digest` function
  stands for `FxHasher64::finish`;
* `Box<dyn Any>` with `downcast_ref::<(O, I::Constraint)>` as a `TypeRep`
  into an arbitrary dynamic type `D` (`dec (enc x) = some x`, and `dec`
  returns `none` exactly on a type mismatch);
* the thread-local `HashMap<u64, CacheEntry>` as an association list keyed by
  the digest (`HashMap` semantics only matter through lookup, in-place
  mutation, overwrite-insert, length and retain, all modelled below);
* `memoized_ref` / `memoized` / `evict` as pure state-passing functions that
  additionally count how often the wrapped function `f` and the projection
  `g` are invoked.
-/

set_option autoImplicit false

namespace Memo

/-- An entry in the cache: the type-erased `(output, constraint)` payload and
how many evictions have passed since the entry was last used. -/
structure CacheEntry (D : Type) where
  data : D
  age : Nat
  deriving Repr, DecidableEq

/-- The map from hashes (digests) to cache entries. -/
abbrev Cache (D : Type) := List (Nat × CacheEntry D)

/-- Lookup of the entry stored under a digest (`HashMap::get_mut` presence). -/
def Cache.find {D : Type} : Cache D → Nat → Option (CacheEntry D)
  | [], _ => none
  | (k', e) :: rest, k => if k' = k then some e else Cache.find rest k

/-- In-place mutation `entry.age = a` of the entry stored under digest `k`. -/
def Cache.setAge {D : Type} : Cache D → Nat → Nat → Cache D
  | [], _, _ => []
  | (k', e) :: rest, k, a =>
      if k' = k then (k', { e with age := a }) :: rest
      else (k', e) :: Cache.setAge rest k a

/-- `HashMap::insert`: overwrite the entry under `k` or append a new one. -/
def Cache.insert {D : Type} : Cache D → Nat → CacheEntry D → Cache D
  | [], k, e => [(k, e)]
  | (k', e') :: rest, k, e =>
      if k' = k then (k, e) :: rest
      else (k', e') :: Cache.insert rest k e

/-- The `Track` trait of `memo.rs`: a key contribution fed to the hasher
(modelled as the stream of scalars fed) and the pure predicate `matches`
deciding whether the input satisfies a previously stored constraint. -/
structure Trackable (I : Type) (C : Type) where
  key : I → List Nat
  matchesC : I → C → Bool

/-- Type-erased storage: `enc` is `Box::new _ as Box<dyn Any>` for the pair
type `α = (O, Constraint)`, `dec` is `downcast_ref::<α>` (`none` on a type
mismatch), and a round trip always succeeds. -/
structure TypeRep (D : Type) (α : Type) where
  enc : α → D
  dec : D → Option α
  dec_enc : ∀ a, dec (enc a) = some a

/-- Result of one `memoized_ref` call: the returned value, the cache after the
call, and how many times `f` and `g` were invoked during the call. -/
structure MemoResult (R D : Type) where
  result : R
  cache : Cache D
  fCalls : Nat
  gCalls : Nat
  deriving Repr

/-- The core call protocol of `memoized_ref` in `memo.rs`: hash the input's
key into a digest; inside the cache access, if an entry is present reset its
age to 0, downcast it to the expected `(O, Constraint)` pair and check
`matches`; on a confirmed hit apply `g` to the stored output; otherwise run
`f`, apply `g` to the fresh output and insert a fresh age-0 entry. -/
def memoizedRef {I C O R D : Type} (tr : Trackable I C) (rep : TypeRep D (O × C))
    (digest : List Nat → Nat) (input : I) (f : I → O × C) (g : O → R)
    (c : Cache D) : MemoResult R D :=
  let key := digest (tr.key input)
  let missFrom : Cache D → MemoResult R D := fun c' =>
    let out := f input
    let r := g out.1
    { result := r, cache := c'.insert key ⟨rep.enc out, 0⟩, fCalls := 1, gCalls := 1 }
  match c.find key with
  | none => missFrom c
  | some entry =>
      let c1 := c.setAge key 0
      match rep.dec entry.data with
      | none => missFrom c1
      | some (output, constraint) =>
          if tr.matchesC input constraint then
            { result := g output, cache := c1, fCalls := 0, gCalls := 1 }
          else missFrom c1

/-- `memoized input f` is `memoized_ref input f Clone::clone`; a clone of a
value is the value itself in the model. -/
def memoized {I C O D : Type} (tr : Trackable I C) (rep : TypeRep D (O × C))
    (digest : List Nat → Nat) (input : I) (f : I → O × C)
    (c : Cache D) : MemoResult O D :=
  memoizedRef tr rep digest input f id c

/-- Details about a cache eviction: entry counts immediately before and
immediately after the sweep. -/
structure Eviction where
  before : Nat
  after : Nat
  deriving Repr, DecidableEq

/-- The aging threshold of `evict` in `memo.rs`. -/
def maxAge : Nat := 5

/-- The body of `cache.retain` on one entry: increment the age, then keep the
entry exactly when the new age does not exceed `maxAge`. -/
def sweepOne {D : Type} (e : CacheEntry D) : Option (CacheEntry D) :=
  let e' := { e with age := e.age + 1 }
  if e'.age ≤ maxAge then some e' else none

/-- Garbage collection: one retain pass incrementing every age and dropping
entries past `maxAge`, reporting the counts before and after. -/
def evict {D : Type} (c : Cache D) : Eviction × Cache D :=
  let c' := c.filterMap (fun ke => (sweepOne ke.2).map fun e' => (ke.1, e'))
  ({ before := c.length, after := c'.length }, c')

/-- Iterated eviction sweeps with no intervening cache activity. -/
def evictN {D : Type} : Nat → Cache D → Cache D
  | 0, c => c
  | n + 1, c => (evict (evictN n c)).2

/-! Concrete instances used to evaluate the model on closed inputs. -/

/-- A small closed dynamic type: payloads of type `Nat × Unit` (output `Nat`,
trivial constraint) and of type `Nat × Nat` (output `Nat`, constraint `Nat`).
Two constructors make genuine type mismatches representable. -/
inductive DynW where
  | pa : Nat × Unit → DynW
  | pb : Nat × Nat → DynW
  | pc : Nat × (Nat × Nat) → DynW
  deriving Repr, DecidableEq

/-- Downcast of `DynW` at the pair type `Nat × Unit`. -/
def repA : TypeRep DynW (Nat × Unit) where
  enc := DynW.pa
  dec := fun d => match d with | .pa x => some x | _ => none
  dec_enc := fun _ => rfl

/-- Downcast of `DynW` at the pair type `Nat × Nat`. -/
def repB : TypeRep DynW (Nat × Nat) where
  enc := DynW.pb
  dec := fun d => match d with | .pb x => some x | _ => none
  dec_enc := fun _ => rfl

/-- Downcast of `DynW` at the pair type `Nat × (Nat × Nat)` (output `Nat`
with a two-field product constraint). -/
def repC : TypeRep DynW (Nat × (Nat × Nat)) where
  enc := DynW.pc
  dec := fun d => match d with | .pc x => some x | _ => none
  dec_enc := fun _ => rfl

/-- The exact-value leaf policy (`impl_track_hash`): the value is hashed into
the key and the trivial constraint always matches. -/
def trackNat : Trackable Nat Unit where
  key := fun n => [n]
  matchesC := fun _ _ => true

/-- A legal but adversarial `Track` instance whose constraint check never
accepts, so every digest-present lookup fails the `matches` filter. -/
def trackNever : Trackable Nat Unit where
  key := fun n => [n]
  matchesC := fun _ _ => false

/-- A `Track` instance with a nontrivial constraint: the stored constraint is
a `Nat` and the input matches exactly the constraints equal to it. -/
def trackEq : Trackable Nat Nat where
  key := fun n => [n]
  matchesC := fun n con => n = con

/-- A concrete stand-in for `FxHasher64` on the fed scalar stream. -/
def digest0 : List Nat → Nat :=
  fun l => l.foldl (fun h x => h * 31 + x) 7

/-! Lookup lemmas about the cache operations. -/

theorem find_insert_self {D : Type} (c : Cache D) (k : Nat) (e : CacheEntry D) :
    (c.insert k e).find k = some e := by
  induction c with
  | nil => simp [Cache.insert, Cache.find]
  | cons ke rest ih =>
      obtain ⟨k', e'⟩ := ke
      by_cases hk : k' = k
      · simp [Cache.insert, Cache.find, hk]
      · simp [Cache.insert, Cache.find, hk, ih]

theorem find_insert_ne {D : Type} (c : Cache D) (k k' : Nat) (e : CacheEntry D)
    (h : k' ≠ k) : (c.insert k e).find k' = c.find k' := by
  induction c with
  | nil => simp [Cache.insert, Cache.find, Ne.symm h]
  | cons ke rest ih =>
      obtain ⟨k₀, e₀⟩ := ke
      by_cases hk : k₀ = k
      · subst hk
        simp [Cache.insert, Cache.find, Ne.symm h]
      · simp [Cache.insert, Cache.find, hk, ih]

theorem find_setAge_self {D : Type} (c : Cache D) (k a : Nat) (e : CacheEntry D)
    (h : c.find k = some e) : (c.setAge k a).find k = some { e with age := a } := by
  induction c with
  | nil => simp [Cache.find] at h
  | cons ke rest ih =>
      obtain ⟨k₀, e₀⟩ := ke
      by_cases hk : k₀ = k
      · subst hk
        simp [Cache.find] at h
        subst h
        simp [Cache.setAge, Cache.find]
      · simp only [Cache.find, if_neg hk] at h
        simp [Cache.setAge, Cache.find, hk, ih h]

theorem find_setAge_ne {D : Type} (c : Cache D) (k k' a : Nat) (h : k' ≠ k) :
    (c.setAge k a).find k' = c.find k' := by
  induction c with
  | nil => simp [Cache.setAge, Cache.find]
  | cons ke rest ih =>
      obtain ⟨k₀, e₀⟩ := ke
      by_cases hk : k₀ = k
      · subst hk
        simp [Cache.setAge, Cache.find, Ne.symm h]
      · simp [Cache.setAge, Cache.find, hk, ih]

/-! Path characterizations of `memoizedRef`, shared by several proofs. -/

theorem memoizedRef_hit {I C O R D : Type} (tr : Trackable I C)
    (rep : TypeRep D (O × C)) (digest : List Nat → Nat) (input : I)
    (f : I → O × C) (g : O → R) (c : Cache D) (e : CacheEntry D) (o : O) (con : C)
    (hfind : c.find (digest (tr.key input)) = some e)
    (hdec : rep.dec e.data = some (o, con))
    (hm : tr.matchesC input con = true) :
    memoizedRef tr rep digest input f g c =
      { result := g o, cache := c.setAge (digest (tr.key input)) 0,
        fCalls := 0, gCalls := 1 } := by
  simp [memoizedRef, hfind, hdec, hm]

theorem memoizedRef_miss_absent {I C O R D : Type} (tr : Trackable I C)
    (rep : TypeRep D (O × C)) (digest : List Nat → Nat) (input : I)
    (f : I → O × C) (g : O → R) (c : Cache D)
    (hfind : c.find (digest (tr.key input)) = none) :
    memoizedRef tr rep digest input f g c =
      { result := g (f input).1,
        cache := c.insert (digest (tr.key input)) ⟨rep.enc (f input), 0⟩,
        fCalls := 1, gCalls := 1 } := by
  simp [memoizedRef, hfind]

theorem memoizedRef_miss_type {I C O R D : Type} (tr : Trackable I C)
    (rep : TypeRep D (O × C)) (digest : List Nat → Nat) (input : I)
    (f : I → O × C) (g : O → R) (c : Cache D) (e : CacheEntry D)
    (hfind : c.find (digest (tr.key input)) = some e)
    (hdec : rep.dec e.data = none) :
    memoizedRef tr rep digest input f g c =
      { result := g (f input).1,
        cache := (c.setAge (digest (tr.key input)) 0).insert
          (digest (tr.key input)) ⟨rep.enc (f input), 0⟩,
        fCalls := 1, gCalls := 1 } := by
  simp [memoizedRef, hfind, hdec]

theorem memoizedRef_miss_constraint {I C O R D : Type} (tr : Trackable I C)
    (rep : TypeRep D (O × C)) (digest : List Nat → Nat) (input : I)
    (f : I → O × C) (g : O → R) (c : Cache D) (e : CacheEntry D) (o : O) (con : C)
    (hfind : c.find (digest (tr.key input)) = some e)
    (hdec : rep.dec e.data = some (o, con))
    (hm : tr.matchesC input con = false) :
    memoizedRef tr rep digest input f g c =
      { result := g (f input).1,
        cache := (c.setAge (digest (tr.key input)) 0).insert
          (digest (tr.key input)) ⟨rep.enc (f input), 0⟩,
        fCalls := 1, gCalls := 1 } := by
  simp [memoizedRef, hfind, hdec, hm]

/-! Claim theorems. -/

/-- Claim C1: a call to `memoized(i, f)` computes a digest from the input's
key; if an entry is present under that digest, its payload downcasts to the
expected `(O, Constraint)` type and the input matches the stored constraint,
the call resets the entry's age to 0 and returns a copy of the stored output
without invoking `f`; if no entry is present, or the entry is present but its
type or constraint does not fit, the call invokes `f` once, stores a fresh
age-0 entry under the digest and returns a copy of the fresh output. -/
theorem memoized_call_protocol {I C O D : Type} (tr : Trackable I C)
    (rep : TypeRep D (O × C)) (digest : List Nat → Nat) (input : I)
    (f : I → O × C) (c : Cache D) :
    (∀ e o con, c.find (digest (tr.key input)) = some e →
        rep.dec e.data = some (o, con) → tr.matchesC input con = true →
        memoized tr rep digest input f c =
          { result := o, cache := c.setAge (digest (tr.key input)) 0,
            fCalls := 0, gCalls := 1 }) ∧
    (c.find (digest (tr.key input)) = none →
        memoized tr rep digest input f c =
          { result := (f input).1,
            cache := c.insert (digest (tr.key input)) ⟨rep.enc (f input), 0⟩,
            fCalls := 1, gCalls := 1 }) ∧
    (∀ e, c.find (digest (tr.key input)) = some e →
        (rep.dec e.data = none ∨
          ∃ o con, rep.dec e.data = some (o, con) ∧ tr.matchesC input con = false) →
        memoized tr rep digest input f c =
          { result := (f input).1,
            cache := (c.setAge (digest (tr.key input)) 0).insert
              (digest (tr.key input)) ⟨rep.enc (f input), 0⟩,
            fCalls := 1, gCalls := 1 }) := by
  refine ⟨?_, ?_, ?_⟩
  · intro e o con h1 h2 h3
    simp [memoized, memoizedRef, h1, h2, h3]
  · intro h1
    simp [memoized, memoizedRef, h1]
  · intro e h1 h2
    rcases h2 with h2 | ⟨o, con, h2, h3⟩
    · simp [memoized, memoizedRef, h1, h2]
    · simp [memoized, memoizedRef, h1, h2, h3]

/-- Claim C1 witness: a concrete hit (stored output 9, age reset from 4 to 0)
and a concrete miss on the empty cache. -/
theorem memoized_call_protocol_witness :
    memoized trackNat repA digest0 3 (fun n => (n + 1, ()))
        [(digest0 [3], ⟨repA.enc (9, ()), 4⟩)] =
      { result := 9, cache := [(digest0 [3], ⟨repA.enc (9, ()), 0⟩)],
        fCalls := 0, gCalls := 1 } ∧
    memoized trackNat repA digest0 3 (fun n => (n + 1, ())) [] =
      { result := 4, cache := [(digest0 [3], ⟨repA.enc (4, ()), 0⟩)],
        fCalls := 1, gCalls := 1 } :=
  ⟨(memoized_call_protocol trackNat repA digest0 3 (fun n => (n + 1, ()))
      [(digest0 [3], ⟨repA.enc (9, ()), 4⟩)]).1 _ 9 () rfl rfl rfl,
   (memoized_call_protocol trackNat repA digest0 3 (fun n => (n + 1, ())) []).2.1 rfl⟩

/-- Claim C6: when a call finds an entry under its digest but the stored
payload's type differs from the expected `(O, Constraint)` pair, or the input
does not match the stored constraint, the call behaves exactly like a full
miss: `f` is invoked, the stale entry is overwritten by the fresh age-0
entry, every other digest is untouched, and no error is reported (the call
returns `g` of the fresh output normally). -/
theorem mismatch_behaves_as_miss {I C O R D : Type} (tr : Trackable I C)
    (rep : TypeRep D (O × C)) (digest : List Nat → Nat) (input : I)
    (f : I → O × C) (g : O → R) (c : Cache D) (e : CacheEntry D)
    (hfind : c.find (digest (tr.key input)) = some e)
    (hmis : rep.dec e.data = none ∨
      ∃ o con, rep.dec e.data = some (o, con) ∧ tr.matchesC input con = false) :
    (memoizedRef tr rep digest input f g c).result = g (f input).1 ∧
    (memoizedRef tr rep digest input f g c).fCalls = 1 ∧
    (memoizedRef tr rep digest input f g c).cache.find (digest (tr.key input)) =
      some ⟨rep.enc (f input), 0⟩ ∧
    ∀ k', k' ≠ digest (tr.key input) →
      (memoizedRef tr rep digest input f g c).cache.find k' = c.find k' := by
  have hres : memoizedRef tr rep digest input f g c =
      { result := g (f input).1,
        cache := (c.setAge (digest (tr.key input)) 0).insert
          (digest (tr.key input)) ⟨rep.enc (f input), 0⟩,
        fCalls := 1, gCalls := 1 } := by
    rcases hmis with h2 | ⟨o, con, h2, h3⟩
    · simp [memoizedRef, hfind, h2]
    · simp [memoizedRef, hfind, h2, h3]
  rw [hres]
  refine ⟨rfl, rfl, find_insert_self _ _ _, ?_⟩
  intro k' hk
  rw [find_insert_ne _ _ _ _ hk, find_setAge_ne _ _ _ _ hk]

/-- Claim C6 witness: a stale entry of the wrong concrete type (`repB`
payload where a `repA` payload is expected) is silently replaced by the
fresh computation. -/
theorem mismatch_behaves_as_miss_witness :
    (memoizedRef trackNat repA digest0 3 (fun n => (n + 1, ())) (fun o => o * 2)
        [(digest0 [3], ⟨repB.enc (7, 3), 2⟩)]).result = 8 ∧
    (memoizedRef trackNat repA digest0 3 (fun n => (n + 1, ())) (fun o => o * 2)
        [(digest0 [3], ⟨repB.enc (7, 3), 2⟩)]).fCalls = 1 ∧
    (memoizedRef trackNat repA digest0 3 (fun n => (n + 1, ())) (fun o => o * 2)
        [(digest0 [3], ⟨repB.enc (7, 3), 2⟩)]).cache.find (digest0 [3]) =
      some ⟨repA.enc (4, ()), 0⟩ :=
  have h := mismatch_behaves_as_miss trackNat repA digest0 3 (fun n => (n + 1, ()))
    (fun o => o * 2) [(digest0 [3], ⟨repB.enc (7, 3), 2⟩)] ⟨repB.enc (7, 3), 2⟩
    rfl (Or.inl rfl)
  ⟨h.1, h.2.1, h.2.2.1⟩

/-- Claim C7: the projection `g` is invoked exactly once per `memoized_ref`
call, on every path (confirmed hit, type mismatch, constraint mismatch, and
full miss alike). -/
theorem memoized_ref_g_invoked_once {I C O R D : Type} (tr : Trackable I C)
    (rep : TypeRep D (O × C)) (digest : List Nat → Nat) (input : I)
    (f : I → O × C) (g : O → R) (c : Cache D) :
    (memoizedRef tr rep digest input f g c).gCalls = 1 := by
  simp only [memoizedRef]
  split
  · rfl
  · split
    · rfl
    · split <;> rfl

/-- Claim C9: when any `memoized` / `memoized_ref` call returns, the cache
holds an entry under the input's digest whose age is 0: the hit path resets
it, the fresh-miss path inserts a new age-0 entry, and the mismatch path
resets the stale entry's age before the check and then overwrites it with a
fresh age-0 entry. -/
theorem entry_age_zero_after_call {I C O R D : Type} (tr : Trackable I C)
    (rep : TypeRep D (O × C)) (digest : List Nat → Nat) (input : I)
    (f : I → O × C) (g : O → R) (c : Cache D) :
    ∃ e, (memoizedRef tr rep digest input f g c).cache.find
        (digest (tr.key input)) = some e ∧ e.age = 0 := by
  simp only [memoizedRef]
  split
  · exact ⟨_, find_insert_self _ _ _, rfl⟩
  · rename_i entry hfind
    split
    · exact ⟨_, find_insert_self _ _ _, rfl⟩
    · split
      · exact ⟨_, find_setAge_self _ _ _ _ hfind, rfl⟩
      · exact ⟨_, find_insert_self _ _ _, rfl⟩

/-! Helper lemmas about `evict`. -/

theorem find_mem {D : Type} (c : Cache D) (k : Nat) (e : CacheEntry D)
    (h : c.find k = some e) : (k, e) ∈ c := by
  induction c with
  | nil => simp [Cache.find] at h
  | cons ke rest ih =>
      obtain ⟨k₀, e₀⟩ := ke
      by_cases hk : k₀ = k
      · subst hk
        simp [Cache.find] at h
        subst h
        exact List.mem_cons_self _ _
      · simp only [Cache.find, if_neg hk] at h
        exact List.mem_cons_of_mem _ (ih h)

/-- Number of entries whose age exceeds `maxAge - 1`, the quantity the spec
says the sweep removes. -/
def staleCount {D : Type} : Cache D → Nat
  | [] => 0
  | ke :: rest => (if maxAge - 1 < ke.2.age then 1 else 0) + staleCount rest

theorem evict_length_split {D : Type} (c : Cache D) :
    (evict c).2.length + staleCount c = c.length := by
  induction c with
  | nil => rfl
  | cons ke rest ih =>
      obtain ⟨k₀, e₀⟩ := ke
      simp only [evict] at ih ⊢
      by_cases hk : e₀.age + 1 ≤ maxAge
      · have hs : ¬ (maxAge - 1 < e₀.age) := by
          have hk' : e₀.age + 1 ≤ 5 := hk
          show ¬ (5 - 1 < e₀.age)
          omega
        simp [List.filterMap_cons, sweepOne, staleCount, hk, hs] at ih ⊢
        omega
      · have hs : maxAge - 1 < e₀.age := by
          have hk' : ¬ (e₀.age + 1 ≤ 5) := hk
          show 5 - 1 < e₀.age
          omega
        simp [List.filterMap_cons, sweepOne, staleCount, hk, hs] at ih ⊢
        omega

theorem mem_evict_src {D : Type} (c : Cache D) (ke : Nat × CacheEntry D)
    (h : ke ∈ (evict c).2) : ∃ e, (ke.1, e) ∈ c ∧ ke.2.age = e.age + 1 := by
  obtain ⟨k₁, e₁⟩ := ke
  simp only [evict, List.mem_filterMap] at h
  obtain ⟨⟨k₀, e₀⟩, hmem, heq⟩ := h
  by_cases hk : e₀.age + 1 ≤ maxAge
  · simp [sweepOne, hk, Prod.ext_iff] at heq
    obtain ⟨rfl, rfl⟩ := heq
    exact ⟨e₀, hmem, rfl⟩
  · simp [sweepOne, hk] at heq

theorem mem_evict_age_le {D : Type} (c : Cache D) (ke : Nat × CacheEntry D)
    (h : ke ∈ (evict c).2) : ke.2.age ≤ maxAge := by
  obtain ⟨k₁, e₁⟩ := ke
  simp only [evict, List.mem_filterMap] at h
  obtain ⟨⟨k₀, e₀⟩, hmem, heq⟩ := h
  by_cases hk : e₀.age + 1 ≤ maxAge
  · simp [sweepOne, hk, Prod.ext_iff] at heq
    obtain ⟨rfl, rfl⟩ := heq
    exact hk
  · simp [sweepOne, hk] at heq

theorem mem_evictN_src {D : Type} (n : Nat) (c : Cache D) (ke : Nat × CacheEntry D)
    (h : ke ∈ evictN n c) : ∃ e, (ke.1, e) ∈ c ∧ ke.2.age = e.age + n := by
  induction n generalizing ke with
  | zero => exact ⟨ke.2, h, rfl⟩
  | succ n ih =>
      obtain ⟨e₁, hmem₁, hage₁⟩ := mem_evict_src _ _ h
      obtain ⟨e₀, hmem₀, hage₀⟩ := ih (ke.1, e₁) hmem₁
      exact ⟨e₀, hmem₀, by simp at hage₀ ⊢; omega⟩

/-- Claim C3: every `evict()` report satisfies `before` = entry count before
the sweep, `after` = entry count after, `before - after` = number of entries
whose age before the call exceeded `maxAge - 1`, and every retained entry is
the increment-by-one of an entry present before the sweep. -/
theorem evict_report_arithmetic {D : Type} (c : Cache D) :
    (evict c).1.before = c.length ∧
    (evict c).1.after = (evict c).2.length ∧
    (evict c).1.before - (evict c).1.after = staleCount c ∧
    ∀ ke, ke ∈ (evict c).2 → ∃ e, (ke.1, e) ∈ c ∧ ke.2.age = e.age + 1 := by
  refine ⟨rfl, rfl, ?_, fun ke h => mem_evict_src c ke h⟩
  have h := evict_length_split c
  have hb : (evict c).1.before = c.length := rfl
  have ha : (evict c).1.after = (evict c).2.length := rfl
  omega

/-- Claim C3 witness: three entries of ages 5, 0 and 7; the sweep drops the
two stale ones (`before - after = 2`) and the survivor's age went from 0
to 1. -/
theorem evict_report_arithmetic_witness :
    (evict [((1 : Nat), (⟨repA.enc (0, ()), 5⟩ : CacheEntry DynW)),
        (2, ⟨repA.enc (1, ()), 0⟩), (3, ⟨repB.enc (2, 2), 7⟩)]).1.before -
      (evict [((1 : Nat), (⟨repA.enc (0, ()), 5⟩ : CacheEntry DynW)),
        (2, ⟨repA.enc (1, ()), 0⟩), (3, ⟨repB.enc (2, 2), 7⟩)]).1.after = 2 ∧
    (∃ e, ((2 : Nat), e) ∈
        [((1 : Nat), (⟨repA.enc (0, ()), 5⟩ : CacheEntry DynW)),
          (2, ⟨repA.enc (1, ()), 0⟩), (3, ⟨repB.enc (2, 2), 7⟩)] ∧
      (1 : Nat) = e.age + 1) :=
  have h := evict_report_arithmetic
    [((1 : Nat), (⟨repA.enc (0, ()), 5⟩ : CacheEntry DynW)),
      (2, ⟨repA.enc (1, ()), 0⟩), (3, ⟨repB.enc (2, 2), 7⟩)]
  ⟨h.2.2.1.trans (by decide), h.2.2.2 (2, ⟨repA.enc (1, ()), 1⟩) (by decide)⟩

/-- Claim C4: no entry with age greater than `maxAge` ever remains in the
cache after a sweep completes, and (more strongly, since ages never shrink
without a hit) after `maxAge + 1` consecutive sweeps with no intervening call
the cache is empty — every entry, in particular one starting at age 0,
survives at most `maxAge` untouched sweeps. -/
theorem entry_survives_at_most_max_age {D : Type} :
    (∀ (c : Cache D) (k : Nat) (e : CacheEntry D),
        ((evict c).2).find k = some e → e.age ≤ maxAge) ∧
    (∀ c : Cache D, evictN (maxAge + 1) c = []) := by
  constructor
  · intro c k e h
    exact mem_evict_age_le c (k, e) (find_mem _ _ _ h)
  · intro c
    rw [List.eq_nil_iff_forall_not_mem]
    rintro ke hke
    have h1 : ke.2.age ≤ 5 := mem_evict_age_le _ _ hke
    obtain ⟨e₀, _, hage⟩ := mem_evictN_src (maxAge + 1) c ke hke
    have h2 : ke.2.age = e₀.age + 6 := hage
    omega

/-- Claim C4 witness: a concrete post-sweep entry has age at most `maxAge`,
and six sweeps empty a concrete one-entry cache. -/
theorem entry_survives_at_most_max_age_witness :
    ((⟨repA.enc (0, ()), 3⟩ : CacheEntry DynW).age ≤ maxAge) ∧
    evictN (maxAge + 1) [((1 : Nat), (⟨repA.enc (0, ()), 0⟩ : CacheEntry DynW))] = [] :=
  ⟨(entry_survives_at_most_max_age.1 [((1 : Nat), ⟨repA.enc (0, ()), 2⟩)] 1
      ⟨repA.enc (0, ()), 3⟩ (by decide)),
   entry_survives_at_most_max_age.2 [((1 : Nat), ⟨repA.enc (0, ()), 0⟩)]⟩

/-- Claim C2 counterexample: create a single entry with one `memoized` call
and run exactly `maxAge = 5` evictions; the fifth report's `after` count is
1, not 0 — the entry (age 5 after the fifth sweep, and 5 ≤ maxAge) is still
in the cache, so the claim that it is gone after `maxAge` evictions is
false. -/
theorem evict_exactly_max_age_cex :
    ¬ ((evict (evictN 4
        ((memoized trackNat repA digest0 3 (fun n => (n + 1, ())) []).cache))).1.after
      = 0) := by decide

/-- Claim C2 amended: an entry created by a single `memoized` call (age 0)
is still present after `maxAge` untouched evictions (the `maxAge`-th report
counts it) and is removed by the `maxAge + 1`-st eviction (whose report's
`after` count excludes it). -/
theorem evict_max_age_plus_one_removes {I C O D : Type} (tr : Trackable I C)
    (rep : TypeRep D (O × C)) (digest : List Nat → Nat) (input : I)
    (f : I → O × C) :
    (evict (evictN (maxAge - 1)
        ((memoized tr rep digest input f []).cache))).1.after = 1 ∧
    (evict (evictN maxAge
        ((memoized tr rep digest input f []).cache))).1.after = 0 ∧
    evictN (maxAge + 1) ((memoized tr rep digest input f []).cache) = [] :=
  ⟨rfl, rfl, rfl⟩

/-- An entry whose incremented age stays within `maxAge` survives one sweep,
with its age incremented and its payload untouched. -/
theorem find_evict_surviving {D : Type} (c : Cache D) (k : Nat) (e : CacheEntry D)
    (h : c.find k = some e) (hage : e.age + 1 ≤ maxAge) :
    ((evict c).2).find k = some { e with age := e.age + 1 } := by
  induction c with
  | nil => simp [Cache.find] at h
  | cons ke rest ih =>
      obtain ⟨k₀, e₀⟩ := ke
      by_cases hk : k₀ = k
      · subst hk
        simp [Cache.find] at h
        subst h
        have hh : Option.map (fun e' => (k₀, e')) (sweepOne e₀)
            = some (k₀, ⟨e₀.data, e₀.age + 1⟩) := by
          simp [sweepOne, hage]
        simp only [evict, List.filterMap_cons, hh]
        simp [Cache.find]
      · simp only [Cache.find, if_neg hk] at h
        have later := ih h
        simp only [evict] at later ⊢
        simp only [List.filterMap_cons]
        cases hsw : sweepOne e₀ with
        | none => simpa [hsw] using later
        | some es => simpa [hsw, Cache.find, hk] using later

/-- An entry whose age plus `n` stays within `maxAge` survives `n` untouched
sweeps, aged by `n`. -/
theorem find_evictN_surviving {D : Type} (n : Nat) (c : Cache D) (k : Nat)
    (e : CacheEntry D) (h : c.find k = some e) (hage : e.age + n ≤ maxAge) :
    (evictN n c).find k = some { e with age := e.age + n } := by
  induction n with
  | zero => simpa using h
  | succ m ih =>
      have hm5 : e.age + (m + 1) ≤ 5 := hage
      have hprev := ih (by show e.age + m ≤ 5; omega)
      have hstep := find_evict_surviving (evictN m c) k { e with age := e.age + m }
        hprev (by show e.age + m + 1 ≤ 5; omega)
      exact hstep

/-- Claim C5 counterexample: with a legal `Track` instance whose `matches`
predicate never accepts (`trackNever`), two successive `memoized` calls on
the same input both miss, so `f` is invoked twice — the claim's "for every
input and pure `f` ... `f` is invoked at most once" is false as stated. -/
theorem memoized_twice_cex :
    ¬ ((memoized trackNever repA digest0 3 (fun n => (n + 1, ()))
          ((memoized trackNever repA digest0 3 (fun n => (n + 1, ())) []).cache)).result =
        (memoized trackNever repA digest0 3 (fun n => (n + 1, ())) []).result ∧
      (memoized trackNever repA digest0 3 (fun n => (n + 1, ())) []).fCalls +
        (memoized trackNever repA digest0 3 (fun n => (n + 1, ()))
          ((memoized trackNever repA digest0 3 (fun n => (n + 1, ())) []).cache)).fCalls
        ≤ 1) := by
  decide

/-- Claim C5 amended: for every input `i` and pure `f`, two `memoized` calls
separated by at most `maxAge` intervening `evict` sweeps and no other cache
activity yield identical outputs, and — provided the input matches the
constraint `f` produces for it (true of every reasonable `Track` instance,
e.g. the always-true leaf policies) — invoke `f` at most once in total. -/
theorem memoized_twice_amended {I C O D : Type} (tr : Trackable I C)
    (rep : TypeRep D (O × C)) (digest : List Nat → Nat) (input : I)
    (f : I → O × C) (c : Cache D) (n : Nat) (hn : n ≤ maxAge)
    (hself : tr.matchesC input (f input).2 = true) :
    (memoized tr rep digest input f
        (evictN n (memoized tr rep digest input f c).cache)).result =
      (memoized tr rep digest input f c).result ∧
    (memoized tr rep digest input f c).fCalls +
      (memoized tr rep digest input f
        (evictN n (memoized tr rep digest input f c).cache)).fCalls ≤ 1 := by
  have hn5 : n ≤ 5 := hn
  have hzn : (0 : Nat) + n ≤ maxAge := by
    show 0 + n ≤ 5
    omega
  have hdec2 : rep.dec (rep.enc (f input)) = some ((f input).1, (f input).2) :=
    rep.dec_enc (f input)
  cases hf : c.find (digest (tr.key input)) with
  | none =>
      have h1 := memoizedRef_miss_absent tr rep digest input f (id : O → O) c hf
      have hfind2 := find_evictN_surviving n
        (c.insert (digest (tr.key input)) ⟨rep.enc (f input), 0⟩)
        (digest (tr.key input)) ⟨rep.enc (f input), 0⟩ (find_insert_self _ _ _) hzn
      have h2 := memoizedRef_hit tr rep digest input f (id : O → O)
        (evictN n (c.insert (digest (tr.key input)) ⟨rep.enc (f input), 0⟩))
        ⟨rep.enc (f input), 0 + n⟩ (f input).1 (f input).2 hfind2 hdec2 hself
      simp only [memoized, h1, h2]
      exact ⟨by trivial, by omega⟩
  | some e =>
      cases hd : rep.dec e.data with
      | none =>
          have h1 := memoizedRef_miss_type tr rep digest input f (id : O → O) c e hf hd
          have hfind2 := find_evictN_surviving n
            ((c.setAge (digest (tr.key input)) 0).insert
              (digest (tr.key input)) ⟨rep.enc (f input), 0⟩)
            (digest (tr.key input)) ⟨rep.enc (f input), 0⟩ (find_insert_self _ _ _) hzn
          have h2 := memoizedRef_hit tr rep digest input f (id : O → O)
            (evictN n ((c.setAge (digest (tr.key input)) 0).insert
              (digest (tr.key input)) ⟨rep.enc (f input), 0⟩))
            ⟨rep.enc (f input), 0 + n⟩ (f input).1 (f input).2 hfind2 hdec2 hself
          simp only [memoized, h1, h2]
          exact ⟨by trivial, by omega⟩
      | some oc =>
          obtain ⟨o, con⟩ := oc
          by_cases hm : tr.matchesC input con = true
          · have h1 := memoizedRef_hit tr rep digest input f (id : O → O) c e o con hf hd hm
            have hfind2 := find_evictN_surviving n
              (c.setAge (digest (tr.key input)) 0) (digest (tr.key input))
              { e with age := 0 } (find_setAge_self _ _ _ _ hf) hzn
            have h2 := memoizedRef_hit tr rep digest input f (id : O → O)
              (evictN n (c.setAge (digest (tr.key input)) 0))
              { e with age := 0 + n } o con hfind2 hd hm
            simp only [memoized, h1, h2]
            exact ⟨by trivial, by omega⟩
          · have hm' : tr.matchesC input con = false := by
              simpa using hm
            have h1 := memoizedRef_miss_constraint tr rep digest input f (id : O → O)
              c e o con hf hd hm'
            have hfind2 := find_evictN_surviving n
              ((c.setAge (digest (tr.key input)) 0).insert
                (digest (tr.key input)) ⟨rep.enc (f input), 0⟩)
              (digest (tr.key input)) ⟨rep.enc (f input), 0⟩ (find_insert_self _ _ _) hzn
            have h2 := memoizedRef_hit tr rep digest input f (id : O → O)
              (evictN n ((c.setAge (digest (tr.key input)) 0).insert
                (digest (tr.key input)) ⟨rep.enc (f input), 0⟩))
              ⟨rep.enc (f input), 0 + n⟩ (f input).1 (f input).2 hfind2 hdec2 hself
            simp only [memoized, h1, h2]
            exact ⟨by trivial, by omega⟩

/-- Claim C5 amended witness: two `memoized` calls with the exact-value leaf
policy on the empty cache and `maxAge = 5` eviction sweeps in between — the
second call still hits, `f` runs once in total, and both calls return 4. -/
theorem memoized_twice_amended_witness :
    (memoized trackNat repA digest0 3 (fun n => (n + 1, ()))
        (evictN 5 (memoized trackNat repA digest0 3 (fun n => (n + 1, ())) []).cache)).result =
      (memoized trackNat repA digest0 3 (fun n => (n + 1, ())) []).result ∧
    (memoized trackNat repA digest0 3 (fun n => (n + 1, ())) []).fCalls +
      (memoized trackNat repA digest0 3 (fun n => (n + 1, ()))
        (evictN 5 (memoized trackNat repA digest0 3 (fun n => (n + 1, ())) []).cache)).fCalls
      ≤ 1 :=
  memoized_twice_amended trackNat repA digest0 3 (fun n => (n + 1, ())) [] 5
    (by decide) rfl

/-! Tuple `Track` implementations, from `impl_track_tuple!` at arities 0–4.
Rust's flat tuples of arity 3 and 4 are modelled as right-nested products. -/

/-- `impl_track_tuple! {}`: the empty tuple contributes nothing to the key
and always matches. -/
def trackTuple0 : Trackable Unit Unit where
  key := fun _ => []
  matchesC := fun _ _ => true

/-- `impl_track_tuple! { 0: A }`. -/
def trackTuple1 {A CA : Type} (ta : Trackable A CA) : Trackable A CA where
  key := fun a => ta.key a
  matchesC := fun a ca => true && ta.matchesC a ca

/-- `impl_track_tuple! { 0: A, 1: B }`. -/
def trackTuple2 {A CA B CB : Type} (ta : Trackable A CA) (tb : Trackable B CB) :
    Trackable (A × B) (CA × CB) where
  key := fun i => ta.key i.1 ++ tb.key i.2
  matchesC := fun i con => true && ta.matchesC i.1 con.1 && tb.matchesC i.2 con.2

/-- `impl_track_tuple! { 0: A, 1: B, 2: C }`. -/
def trackTuple3 {A CA B CB E CE : Type} (ta : Trackable A CA)
    (tb : Trackable B CB) (te : Trackable E CE) :
    Trackable (A × B × E) (CA × CB × CE) where
  key := fun i => ta.key i.1 ++ tb.key i.2.1 ++ te.key i.2.2
  matchesC := fun i con =>
    true && ta.matchesC i.1 con.1 && tb.matchesC i.2.1 con.2.1 &&
      te.matchesC i.2.2 con.2.2

/-- `impl_track_tuple! { 0: A, 1: B, 2: C, 3: D }`. -/
def trackTuple4 {A CA B CB E CE F CF : Type} (ta : Trackable A CA)
    (tb : Trackable B CB) (te : Trackable E CE) (tf : Trackable F CF) :
    Trackable (A × B × E × F) (CA × CB × CE × CF) where
  key := fun i => ta.key i.1 ++ tb.key i.2.1 ++ te.key i.2.2.1 ++ tf.key i.2.2.2
  matchesC := fun i con =>
    true && ta.matchesC i.1 con.1 && tb.matchesC i.2.1 con.2.1 &&
      te.matchesC i.2.2.1 con.2.2.1 && tf.matchesC i.2.2.2 con.2.2.2

/-- Claim C8: a tuple of trackable fields (arities 0 to 4) matches a stored
constraint exactly when every field's individual `matches` accepts the
corresponding component; in particular, for a two-field input with a
digest-present, type-correct stored entry, the lookup is a hit (`f` not
invoked) precisely when both fields' predicates hold — the full 4-case
truth table. -/
theorem track_tuple_matches_product :
    (∀ (u con : Unit), trackTuple0.matchesC u con = true) ∧
    (∀ (A CA : Type) (ta : Trackable A CA) (a : A) (ca : CA),
        (trackTuple1 ta).matchesC a ca = true ↔ ta.matchesC a ca = true) ∧
    (∀ (A CA B CB : Type) (ta : Trackable A CA) (tb : Trackable B CB)
        (i : A × B) (con : CA × CB),
        (trackTuple2 ta tb).matchesC i con = true ↔
          ta.matchesC i.1 con.1 = true ∧ tb.matchesC i.2 con.2 = true) ∧
    (∀ (A CA B CB E CE : Type) (ta : Trackable A CA) (tb : Trackable B CB)
        (te : Trackable E CE) (i : A × B × E) (con : CA × CB × CE),
        (trackTuple3 ta tb te).matchesC i con = true ↔
          ta.matchesC i.1 con.1 = true ∧ tb.matchesC i.2.1 con.2.1 = true ∧
            te.matchesC i.2.2 con.2.2 = true) ∧
    (∀ (A CA B CB E CE F CF : Type) (ta : Trackable A CA) (tb : Trackable B CB)
        (te : Trackable E CE) (tf : Trackable F CF) (i : A × B × E × F)
        (con : CA × CB × CE × CF),
        (trackTuple4 ta tb te tf).matchesC i con = true ↔
          ta.matchesC i.1 con.1 = true ∧ tb.matchesC i.2.1 con.2.1 = true ∧
            te.matchesC i.2.2.1 con.2.2.1 = true ∧
              tf.matchesC i.2.2.2 con.2.2.2 = true) ∧
    (∀ (A CA B CB O R D : Type) (ta : Trackable A CA) (tb : Trackable B CB)
        (rep : TypeRep D (O × (CA × CB))) (digest : List Nat → Nat)
        (i : A × B) (f : A × B → O × (CA × CB)) (g : O → R) (c : Cache D)
        (e : CacheEntry D) (o : O) (con : CA × CB),
        c.find (digest ((trackTuple2 ta tb).key i)) = some e →
        rep.dec e.data = some (o, con) →
        ((memoizedRef (trackTuple2 ta tb) rep digest i f g c).fCalls = 0 ↔
          ta.matchesC i.1 con.1 = true ∧ tb.matchesC i.2 con.2 = true)) := by
  refine ⟨fun u con => rfl, ?_, ?_, ?_, ?_, ?_⟩
  · intro A CA ta a ca
    simp [trackTuple1]
  · intro A CA B CB ta tb i con
    simp [trackTuple2, Bool.and_eq_true, and_assoc]
  · intro A CA B CB E CE ta tb te i con
    simp [trackTuple3, Bool.and_eq_true, and_assoc]
  · intro A CA B CB E CE F CF ta tb te tf i con
    simp [trackTuple4, Bool.and_eq_true, and_assoc]
  · intro A CA B CB O R D ta tb rep digest i f g c e o con hfind hdec
    by_cases hm : (trackTuple2 ta tb).matchesC i con = true
    · rw [memoizedRef_hit (trackTuple2 ta tb) rep digest i f g c e o con hfind hdec hm]
      have hm' : ta.matchesC i.1 con.1 = true ∧ tb.matchesC i.2 con.2 = true := by
        simpa [trackTuple2, Bool.and_eq_true, and_assoc] using hm
      exact ⟨fun _ => hm', fun _ => rfl⟩
    · have hm' : (trackTuple2 ta tb).matchesC i con = false := by
        simpa using hm
      rw [memoizedRef_miss_constraint (trackTuple2 ta tb) rep digest i f g c e o con
        hfind hdec hm']
      refine ⟨fun h => absurd h Nat.one_ne_zero, fun hb => absurd ?_ hm⟩
      simp [trackTuple2, hb.1, hb.2]

/-- Claim C8 witness: input `(1, 2)` with an equality-constraint field
policy against stored constraints `(1, 2)`, `(1, 3)`, `(9, 2)` and `(9, 3)`:
a hit exactly in the both-pass case of the truth table. -/
theorem track_tuple_matches_product_witness :
    ((memoizedRef (trackTuple2 trackEq trackEq) repC digest0 (1, 2)
        (fun i => (i.1 + i.2, i)) (id : Nat → Nat)
        [(digest0 [1, 2], ⟨repC.enc (7, (1, 2)), 0⟩)]).fCalls = 0) ∧
    ¬ ((memoizedRef (trackTuple2 trackEq trackEq) repC digest0 (1, 2)
        (fun i => (i.1 + i.2, i)) (id : Nat → Nat)
        [(digest0 [1, 2], ⟨repC.enc (7, (1, 3)), 0⟩)]).fCalls = 0) ∧
    ¬ ((memoizedRef (trackTuple2 trackEq trackEq) repC digest0 (1, 2)
        (fun i => (i.1 + i.2, i)) (id : Nat → Nat)
        [(digest0 [1, 2], ⟨repC.enc (7, (9, 2)), 0⟩)]).fCalls = 0) ∧
    ¬ ((memoizedRef (trackTuple2 trackEq trackEq) repC digest0 (1, 2)
        (fun i => (i.1 + i.2, i)) (id : Nat → Nat)
        [(digest0 [1, 2], ⟨repC.enc (7, (9, 3)), 0⟩)]).fCalls = 0) := by
  have h := track_tuple_matches_product.2.2.2.2.2 Nat Nat Nat Nat Nat Nat DynW
    trackEq trackEq repC digest0 (1, 2) (fun i => (i.1 + i.2, i)) (id : Nat → Nat)
  refine ⟨?_, ?_, ?_, ?_⟩
  · exact (h [(digest0 [1, 2], ⟨repC.enc (7, (1, 2)), 0⟩)]
      ⟨repC.enc (7, (1, 2)), 0⟩ 7 (1, 2) rfl rfl).mpr ⟨by decide, by decide⟩
  · intro hcl
    exact absurd ((h [(digest0 [1, 2], ⟨repC.enc (7, (1, 3)), 0⟩)]
      ⟨repC.enc (7, (1, 3)), 0⟩ 7 (1, 3) rfl rfl).mp hcl).2 (by decide)
  · intro hcl
    exact absurd ((h [(digest0 [1, 2], ⟨repC.enc (7, (9, 2)), 0⟩)]
      ⟨repC.enc (7, (9, 2)), 0⟩ 7 (9, 2) rfl rfl).mp hcl).1 (by decide)
  · intro hcl
    exact absurd ((h [(digest0 [1, 2], ⟨repC.enc (7, (9, 3)), 0⟩)]
      ⟨repC.enc (7, (9, 3)), 0⟩ 7 (9, 3) rfl rfl).mp hcl).1 (by decide)

/-! Re-entrancy model.  The thread-local cache sits behind a `RefCell`; every
cache access goes through `with`, which takes the mutable borrow for the
duration of its closure and panics (here: `Except.error ()`) if the borrow is
already held.  `memoizedRefRe` is `memoized_ref` in this model, with a
projection `g` that is itself a stateful computation able to access the
cache. -/

/-- The borrow flag of the cache's `RefCell` together with the cache. -/
structure BState (D : Type) where
  borrowed : Bool
  cache : Cache D

/-- A computation that may access the cache and may panic. -/
def ReM (D R : Type) : Type := BState D → Except Unit (R × BState D)

/-- The `with` accessor: panic on an outstanding mutable borrow, otherwise
run the body on the cache with the borrow held and release it afterwards. -/
def withCache {D α : Type} (body : Cache D → α × Cache D) : ReM D α := fun st =>
  if st.borrowed then .error ()
  else
    let (a, c') := body st.cache
    .ok (a, ⟨false, c'⟩)

/-- `evict` as a re-entrant computation (it accesses the cache via `with`). -/
def evictRe {D : Type} : ReM D Eviction := withCache (fun c => evict c)

/-- `memoized_ref` with the borrow made explicit: the cache-access closure
holds the borrow while it runs, and on the hit path it invokes `g` inside
that closure (state carries `borrowed := true`); on the miss paths the
closure returns first, `f` runs, `g` runs with the borrow released, and a
second `with` inserts the fresh entry. -/
def memoizedRefRe {I C O R D : Type} (tr : Trackable I C) (rep : TypeRep D (O × C))
    (digest : List Nat → Nat) (input : I) (f : I → O × C) (g : O → ReM D R) :
    ReM D R := fun st =>
  let key := digest (tr.key input)
  let missFrom : Cache D → Except Unit (R × BState D) := fun c1 =>
    let out := f input
    match g out.1 ⟨false, c1⟩ with
    | .error u => .error u
    | .ok (r, st2) =>
        if st2.borrowed then .error ()
        else .ok (r, ⟨false, st2.cache.insert key ⟨rep.enc out, 0⟩⟩)
  if st.borrowed then .error ()
  else
    match st.cache.find key with
    | none => missFrom st.cache
    | some entry =>
        let c1 := st.cache.setAge key 0
        match rep.dec entry.data with
        | none => missFrom c1
        | some (output, constraint) =>
            if tr.matchesC input constraint then
              match g output ⟨true, c1⟩ with
              | .error u => .error u
              | .ok (r, st2) => .ok (r, ⟨false, st2.cache⟩)
            else missFrom c1

/-- Claim C10: a re-entrant projection `g` — one that accesses the cache, so
it panics whenever the borrow is already held and completes normally when it
is not (for example `g := fun _ => evictRe`) — makes the confirmed-hit path
of `memoized_ref` panic with a double borrow, because there `g` runs inside
the cache-access closure; on every miss path (digest absent, type mismatch,
or constraint mismatch) the same `g` runs after the borrow is released and
the call completes normally. -/
theorem reentrant_g_panics_on_hit {I C O R D : Type} (tr : Trackable I C)
    (rep : TypeRep D (O × C)) (digest : List Nat → Nat) (input : I)
    (f : I → O × C) (g : O → ReM D R)
    (hpanic : ∀ (o : O) (c : Cache D), g o ⟨true, c⟩ = .error ())
    (hok : ∀ (o : O) (c : Cache D), ∃ r st', g o ⟨false, c⟩ = .ok (r, st') ∧
      st'.borrowed = false) :
    (∀ (c : Cache D) (e : CacheEntry D) (o : O) (con : C),
        c.find (digest (tr.key input)) = some e →
        rep.dec e.data = some (o, con) →
        tr.matchesC input con = true →
        memoizedRefRe tr rep digest input f g ⟨false, c⟩ = .error ()) ∧
    (∀ c : Cache D, c.find (digest (tr.key input)) = none →
        ∃ r st', memoizedRefRe tr rep digest input f g ⟨false, c⟩ = .ok (r, st')) ∧
    (∀ (c : Cache D) (e : CacheEntry D),
        c.find (digest (tr.key input)) = some e →
        rep.dec e.data = none →
        ∃ r st', memoizedRefRe tr rep digest input f g ⟨false, c⟩ = .ok (r, st')) ∧
    (∀ (c : Cache D) (e : CacheEntry D) (o : O) (con : C),
        c.find (digest (tr.key input)) = some e →
        rep.dec e.data = some (o, con) →
        tr.matchesC input con = false →
        ∃ r st', memoizedRefRe tr rep digest input f g ⟨false, c⟩ = .ok (r, st')) := by
  refine ⟨?_, ?_, ?_, ?_⟩
  · intro c e o con hfind hdec hm
    simp [memoizedRefRe, hfind, hdec, hm, hpanic]
  · intro c hfind
    obtain ⟨r, st', hg, hb⟩ := hok (f input).1 c
    refine ⟨r, ⟨false, st'.cache.insert (digest (tr.key input))
      ⟨rep.enc (f input), 0⟩⟩, ?_⟩
    simp [memoizedRefRe, hfind, hg, hb]
  · intro c e hfind hdec
    obtain ⟨r, st', hg, hb⟩ := hok (f input).1 (c.setAge (digest (tr.key input)) 0)
    refine ⟨r, ⟨false, st'.cache.insert (digest (tr.key input))
      ⟨rep.enc (f input), 0⟩⟩, ?_⟩
    simp [memoizedRefRe, hfind, hdec, hg, hb]
  · intro c e o con hfind hdec hm
    obtain ⟨r, st', hg, hb⟩ := hok (f input).1 (c.setAge (digest (tr.key input)) 0)
    refine ⟨r, ⟨false, st'.cache.insert (digest (tr.key input))
      ⟨rep.enc (f input), 0⟩⟩, ?_⟩
    simp [memoizedRefRe, hfind, hdec, hm, hg, hb]

/-- Claim C10 witness: with `g := fun _ => evictRe`, a confirmed hit on a
concrete one-entry cache panics, while the same call completes normally on
the empty cache (digest absent), on a cache holding a wrong-typed entry
under the digest (type mismatch), and — with the never-accepting `Track`
instance — on a cache holding a well-typed entry (constraint mismatch). -/
theorem reentrant_g_panics_on_hit_witness :
    memoizedRefRe trackNat repA digest0 3 (fun n => (n + 1, ()))
        (fun _ => evictRe) ⟨false, [(digest0 [3], ⟨repA.enc (9, ()), 2⟩)]⟩ =
      .error () ∧
    (∃ r st', memoizedRefRe trackNat repA digest0 3 (fun n => (n + 1, ()))
        (fun _ => evictRe) ⟨false, []⟩ = .ok (r, st')) ∧
    (∃ r st', memoizedRefRe trackNat repA digest0 3 (fun n => (n + 1, ()))
        (fun _ => evictRe) ⟨false, [(digest0 [3], ⟨repB.enc (7, 3), 2⟩)]⟩ =
      .ok (r, st')) ∧
    (∃ r st', memoizedRefRe trackNever repA digest0 3 (fun n => (n + 1, ()))
        (fun _ => evictRe) ⟨false, [(digest0 [3], ⟨repA.enc (9, ()), 2⟩)]⟩ =
      .ok (r, st')) :=
  have h := reentrant_g_panics_on_hit trackNat repA digest0 3 (fun n => (n + 1, ()))
    (fun _ => evictRe) (fun _ _ => rfl)
    (fun _ c => ⟨(evict c).1, ⟨false, (evict c).2⟩, rfl, rfl⟩)
  have h' := reentrant_g_panics_on_hit trackNever repA digest0 3 (fun n => (n + 1, ()))
    (fun _ => evictRe) (fun _ _ => rfl)
    (fun _ c => ⟨(evict c).1, ⟨false, (evict c).2⟩, rfl, rfl⟩)
  ⟨h.1 [(digest0 [3], ⟨repA.enc (9, ()), 2⟩)] ⟨repA.enc (9, ()), 2⟩ 9 () rfl rfl rfl,
   h.2.1 [] rfl,
   h.2.2.1 [(digest0 [3], ⟨repB.enc (7, 3), 2⟩)] ⟨repB.enc (7, 3), 2⟩ rfl rfl,
   h'.2.2.2 [(digest0 [3], ⟨repA.enc (9, ()), 2⟩)] ⟨repA.enc (9, ()), 2⟩ 9 ()
     rfl rfl rfl⟩

end Memo
